import Mathlib

/-
Verification of the Q-learning grid-world engine in src/app/page.tsx.

Shallow embedding conventions:
- JS numbers are modelled as exact rationals (ℚ); the JS value -Infinity
  (used as the initial best-episode reward and as the initial running
  maximum in the greedy argmax loops) is modelled as ⊥ in WithBot ℚ.
- Positions are pairs of integers.  The Q-table, a JS object keyed by the
  string "row,col" whose values are objects keyed by action name, is an
  association list from the string key to a partial map from actions to
  rationals (a missing action key reads as undefined, and the code's
  `q || 0` read is Option.getD 0).
- React state is gathered into one EngineState record; the Math.random()
  draws of the epsilon-greedy policy are passed in explicitly (explore is
  the outcome of the `Math.random() < epsilon` test, randA the uniformly
  drawn action), matching the step/chooseAction control flow otherwise.
- The 500 ms settling timeout at an episode end (return the agent to the
  start cell and clear the trajectory) is collapsed into the terminal
  branch of the step, as the driver never steps while it is pending.
-/

namespace RL

/-- The TS CellType strings '', 'start', 'gem', 'skull'. -/
inductive Cell
  | empty
  | start
  | gem
  | skull
  deriving DecidableEq

/-- type Position = [number, number] -/
abbrev Pos := Int × Int

/-- type Action = 'up' | 'down' | 'left' | 'right' -/
inductive Action
  | up
  | down
  | left
  | right
  deriving DecidableEq

/-- The inner object of a QTableState entry: actions map to numbers,
a missing action key reads as undefined. -/
abbrev QEntry := Action → Option ℚ

/-- interface QTableState: a JS object keyed by state strings. -/
abbrev QTable := List (String × QEntry)

abbrev Grid := List (List Cell)

def GRID_SIZE : Int := 5

/-- const ACTIONS: Action[] = ['up', 'down', 'left', 'right'] -/
def ACTIONS : List Action := [Action.up, Action.down, Action.left, Action.right]

def alpha : ℚ := 1/10

def gamma : ℚ := 9/10

def epsilonDecay : ℚ := 995/1000

def minEpsilon : ℚ := 1/100

/-- getStateKey: pos ↦ "row,col". -/
def stateKey (p : Pos) : String := toString p.1 ++ "," ++ toString p.2

/-- getNextPosition: displacement clamped with Math.max / Math.min. -/
def getNextPosition (p : Pos) (a : Action) : Pos :=
  match a with
  | Action.up => (max (p.1 - 1) 0, p.2)
  | Action.down => (min (p.1 + 1) (GRID_SIZE - 1), p.2)
  | Action.left => (p.1, max (p.2 - 1) 0)
  | Action.right => (p.1, min (p.2 + 1) (GRID_SIZE - 1))

/-- grid[pos[0]][pos[1]] : a missing cell (out-of-range index) is none.
(In JS an out-of-range row index would throw on the second subscript;
every position the engine ever produces is clamped in bounds, so this
corner is unreachable and modelled as none.) -/
def cellAt (g : Grid) (p : Pos) : Option Cell :=
  if 0 ≤ p.1 ∧ 0 ≤ p.2 then (g.get? p.1.toNat).bind (fun row => row.get? p.2.toNat)
  else none

/-- getReward: 0 before the grid exists, else 10 / -10 / -0.1 by cell type. -/
def getReward (g : Grid) (p : Pos) : ℚ :=
  if g.length = 0 then 0
  else
    match cellAt g p with
    | some Cell.gem => 10
    | some Cell.skull => -10
    | _ => -(1/10)

/-- isTerminalState: false before the grid exists, else gem or skull. -/
def isTerminalState (g : Grid) (p : Pos) : Bool :=
  if g.length = 0 then false
  else
    match cellAt g p with
    | some Cell.gem => true
    | some Cell.skull => true
    | _ => false

/-- Property lookup on the JS object modelled as an association list. -/
def qlookup : QTable → String → Option QEntry
  | [], _ => none
  | kv :: rest, key => if kv.1 = key then some kv.2 else qlookup rest key

/-- The logical value of a Q-table cell: `qtable[key][a] || 0`, with a
missing state entry also reading as 0 (the table is sparse). -/
def readQ (qt : QTable) (key : String) (a : Action) : ℚ :=
  (((qlookup qt key).getD (fun _ => some 0)) a).getD 0

/-- The lazy initialization both chooseAction and step perform:
if the state has no entry, create one with all four actions set to 0. -/
def ensureState (qt : QTable) (key : String) : QTable :=
  match qlookup qt key with
  | some _ => qt
  | none => (key, fun _ => some 0) :: qt

/-- Assignment `qtable[key][a] = v` (the key is always present when the
code performs it; on a missing key this is a no-op). -/
def setQ (qt : QTable) (key : String) (a : Action) (v : ℚ) : QTable :=
  qt.map (fun kv =>
    if kv.1 = key then (kv.1, fun b => if b = a then some v else kv.2 b) else kv)

/-- The greedy scan shared by chooseAction and calculateOptimalPath:
maxQ starts at -Infinity, bestAction at ACTIONS[0], and each action whose
`q = e[a] || 0` strictly exceeds the running maximum replaces both. -/
def bestActionOf (e : QEntry) : Action :=
  (ACTIONS.foldl
    (fun st a =>
      if st.1 < (((e a).getD 0 : ℚ) : WithBot ℚ) then ((((e a).getD 0 : ℚ) : WithBot ℚ), a)
      else st)
    ((⊥ : WithBot ℚ), Action.up)).2

/-- The maximum of the four stored values of an entry (values as read by
the code, i.e. with `|| 0`). -/
def maxOver (v : Action → ℚ) : ℚ :=
  max (max (max (v Action.up) (v Action.down)) (v Action.left)) (v Action.right)

/-- The tie-break rule as the spec words it: the first action in the
fixed enumeration order [up, down, left, right] whose stored value equals
the maximum over the four stored values. -/
def firstMaxAction (v : Action → ℚ) : Action :=
  if v Action.up = maxOver v then Action.up
  else if v Action.down = maxOver v then Action.down
  else if v Action.left = maxOver v then Action.left
  else Action.right

/-- chooseAction: lazily materialize the state, then either explore
(explore is the outcome of `Math.random() < epsilon`, randA the random
draw) or exploit via the greedy scan.  Returns the chosen action together
with the table, since the JS function mutates its argument. -/
def chooseAction (p : Pos) (qt : QTable) (explore : Bool) (randA : Action) :
    Action × QTable :=
  let key := stateKey p
  let qt1 := ensureState qt key
  if explore then (randA, qt1)
  else (bestActionOf ((qlookup qt1 key).getD (fun _ => some 0)), qt1)

/-- The while loop of calculateOptimalPath, with the remaining iteration
budget as fuel (maxSteps = 50 at the top level).  Returns the pushed
positions and the final value of currentPos. -/
def calcLoop (g : Grid) (qt : QTable) : Nat → Pos → List Pos × Pos
  | 0, cur => ([], cur)
  | fuel + 1, cur =>
    if isTerminalState g cur then ([], cur)
    else
      match qlookup qt (stateKey cur) with
      | none => ([cur], cur)
      | some e =>
        let pr := calcLoop g qt fuel (getNextPosition cur (bestActionOf e))
        (cur :: pr.1, pr.2)

/-- calculateOptimalPath: walk greedily from (0,0) for at most 50 steps,
then append the final position iff it is terminal. -/
def calculateOptimalPath (g : Grid) (qt : QTable) : List Pos :=
  let pr := calcLoop g qt 50 ((0 : Int), (0 : Int))
  if isTerminalState g pr.2 then pr.1 ++ [pr.2] else pr.1

/-- Follows the spec's words for extractOptimalPath: starting from the
fixed start position, repeatedly: if the current position is terminal,
append it and stop; otherwise append it, look up the table entry (if
absent, stop), select the action with maximum value under the policy's
tie-break rule with epsilon forced to 0, and advance; capped at 50
iterations. -/
def specExtractLoop (g : Grid) (qt : QTable) : Nat → Pos → List Pos
  | 0, cur => if isTerminalState g cur then [cur] else []
  | fuel + 1, cur =>
    if isTerminalState g cur then [cur]
    else
      match qlookup qt (stateKey cur) with
      | none => [cur]
      | some e =>
        cur :: specExtractLoop g qt fuel
          (getNextPosition cur (firstMaxAction (fun a => (e a).getD 0)))

/-- The spec's extractOptimalPath, assembled from specExtractLoop. -/
def extractOptimalPathSpec (g : Grid) (qt : QTable) : List Pos :=
  specExtractLoop g qt 50 ((0 : Int), (0 : Int))

/-- max over the four actions of the logical value of nextState's entry. -/
def maxNextOf (qt : QTable) (p : Pos) : ℚ :=
  maxOver (fun a => readQ qt (stateKey p) a)

/-- The Q-learning update of step (lines 198-214): ensure both entries
exist, compute maxQNext over the next state's four actions, and assign
`oldQ + alpha * (reward + gamma * maxQNext - oldQ)` at [state][action].
(After ensureState both entries exist, so the defaulted reads readQ are
exactly the code's `table[key][a] || 0`.) -/
def qUpdate (qt : QTable) (s : Pos) (a : Action) (r : ℚ) (n : Pos) : QTable :=
  let sk := stateKey s
  let nk := stateKey n
  let qt2 := ensureState (ensureState qt sk) nk
  let maxQNext :=
    max (max (max (readQ qt2 nk Action.up) (readQ qt2 nk Action.down))
      (readQ qt2 nk Action.left)) (readQ qt2 nk Action.right)
  let oldQ := readQ qt2 sk a
  let newQ := oldQ + alpha * (r + gamma * maxQNext - oldQ)
  setQ qt2 sk a newQ

/-- Row displacement of an action as the spec states it. -/
def dRow : Action → Int
  | Action.up => -1
  | Action.down => 1
  | Action.left => 0
  | Action.right => 0

/-- Column displacement of an action as the spec states it. -/
def dCol : Action → Int
  | Action.up => 0
  | Action.down => 0
  | Action.left => -1
  | Action.right => 1

/-- newGrid[i][j] = c on a rectangular list grid. -/
def setCell (g : Grid) (i j : Nat) (c : Cell) : Grid :=
  g.set i ((g.getD i []).set j c)

/-- initializeGrid: 5×5 of '', start at (0,0), gem at (4,4),
skulls at (2,2), (1,3), (3,1). -/
def initializeGrid : Grid :=
  setCell (setCell (setCell (setCell (setCell
    (List.replicate 5 (List.replicate 5 Cell.empty)) 0 0 Cell.start)
    4 4 Cell.gem) 2 2 Cell.skull) 1 3 Cell.skull) 3 1 Cell.skull

/-- interface PathStep -/
structure PathStep where
  position : Pos
  action : Action
  reward : ℚ
  deriving DecidableEq

/-- interface SavedPath (the Date timestamp is modelled as a Nat). -/
structure SavedPath where
  id : String
  name : String
  steps : List PathStep
  totalReward : ℚ
  timestamp : Nat
  deriving DecidableEq

/-- All the React state of the component that the engine touches. -/
structure EngineState where
  grid : Grid
  agentPos : Pos
  qTable : QTable
  isRunning : Bool
  currentPath : List PathStep
  optimalPath : List Pos
  savedPaths : List SavedPath
  showOptimalPath : Bool
  stepCount : Nat
  episodeCount : Nat
  totalReward : ℚ
  bestEpisodeReward : WithBot ℚ
  epsilon : ℚ

/-- The state after mount: the useState initial values, with the grid
already constructed by the mount effect. -/
def initState : EngineState where
  grid := initializeGrid
  agentPos := ((0 : Int), (0 : Int))
  qTable := []
  isRunning := false
  currentPath := []
  optimalPath := []
  savedPaths := []
  showOptimalPath := false
  stepCount := 0
  episodeCount := 0
  totalReward := 0
  bestEpisodeReward := ⊥
  epsilon := 1/5

/-- saveCurrentPath: no-op on an empty trajectory, else append one
SavedPath built from the current trajectory (now is Date.now()). -/
def saveCurrentPath (s : EngineState) (now : Nat) : EngineState :=
  if s.currentPath.length = 0 then s
  else
    let pathReward := s.currentPath.foldl (fun sum st => sum + st.reward) 0
    { s with
      savedPaths := s.savedPaths ++
        [{ id := toString now
           name := "Path " ++ toString (s.savedPaths.length + 1)
           steps := s.currentPath
           totalReward := pathReward
           timestamp := now }] }

/-- One step of the engine (lines 181-242).  The episode-end settling
timeout (agent back to (0,0), trajectory cleared) is collapsed into the
terminal branch.  episodeReward reads the pre-step trajectory plus the
new reward, exactly as the closure over currentPath does. -/
def stepEngine (s : EngineState) (explore : Bool) (randA : Action) : EngineState :=
  if s.grid.length = 0 then s
  else
    let ac := chooseAction s.agentPos s.qTable explore randA
    let action := ac.1
    let qt1 := ac.2
    let nextState := getNextPosition s.agentPos action
    let r := getReward s.grid nextState
    let qt2 := qUpdate qt1 s.agentPos action r nextState
    if isTerminalState s.grid nextState then
      let episodeReward := s.currentPath.foldl (fun sum st => sum + st.reward) 0 + r
      { s with
        qTable := qt2
        agentPos := ((0 : Int), (0 : Int))
        currentPath := []
        stepCount := s.stepCount + 1
        totalReward := s.totalReward + r
        bestEpisodeReward :=
          if s.bestEpisodeReward < (episodeReward : WithBot ℚ) then
            (episodeReward : WithBot ℚ)
          else s.bestEpisodeReward
        episodeCount := s.episodeCount + 1
        epsilon := max (s.epsilon * epsilonDecay) minEpsilon
        optimalPath := calculateOptimalPath s.grid qt2 }
    else
      { s with
        qTable := qt2
        agentPos := nextState
        currentPath := s.currentPath ++
          [{ position := s.agentPos, action := action, reward := r }]
        stepCount := s.stepCount + 1
        totalReward := s.totalReward + r }

/-- toggleSimulation -/
def toggleSimulation (s : EngineState) : EngineState :=
  { s with isRunning := !s.isRunning }

/-- reset (lines 258-270). -/
def reset (s : EngineState) : EngineState :=
  { s with
    isRunning := false
    agentPos := ((0 : Int), (0 : Int))
    qTable := []
    currentPath := []
    optimalPath := []
    stepCount := 0
    episodeCount := 0
    totalReward := 0
    bestEpisodeReward := ⊥
    epsilon := 1/5
    grid := initializeGrid }

/-- showOptimalRoute: recompute and show the path unless the table is empty. -/
def showOptimalRoute (s : EngineState) : EngineState :=
  if 0 < s.qTable.length then
    { s with
      optimalPath := calculateOptimalPath s.grid s.qTable
      showOptimalPath := true }
  else s

/-- The Hide Path button. -/
def hideOptimalRoute (s : EngineState) : EngineState :=
  { s with showOptimalPath := false }

/-- The public command set, with the random draws and the wall clock as
explicit inputs. -/
inductive Cmd
  | cstep (explore : Bool) (randA : Action)
  | creset
  | ctoggle
  | csave (now : Nat)
  | cshow
  | chide

def applyCmd (s : EngineState) : Cmd → EngineState
  | Cmd.cstep e a => stepEngine s e a
  | Cmd.creset => reset s
  | Cmd.ctoggle => toggleSimulation s
  | Cmd.csave now => saveCurrentPath s now
  | Cmd.cshow => showOptimalRoute s
  | Cmd.chide => hideOptimalRoute s

/-- Run a command sequence from the freshly mounted component. -/
def runCmds (cmds : List Cmd) : EngineState := cmds.foldl applyCmd initState

/-- A concrete value table used by witnesses. -/
def vDemo : Action → ℚ
  | Action.up => 0
  | Action.down => 1
  | Action.left => 1
  | Action.right => 0

/-- A concrete one-entry Q-table used by witnesses. -/
def qtDemo : QTable := [(stateKey ((0 : Int), (0 : Int)), fun a => some (vDemo a))]

/-- A concrete engine state with a nonempty trajectory, for witnesses. -/
def sDemo : EngineState :=
  { initState with
    currentPath := [{ position := ((0 : Int), (0 : Int)), action := Action.right,
                      reward := -(1/10) }] }

/-- Claim C5: for every position with both coordinates in [0, GRID_SIZE-1]
and every action, getNextPosition applies the action's fixed displacement
and clamps each coordinate independently to [0, GRID_SIZE-1], so the
result is always within grid bounds; moving against a boundary leaves
that axis unchanged. -/
theorem getNextPosition_clamps (p : Pos) (a : Action)
    (h1 : 0 ≤ p.1) (h2 : p.1 ≤ GRID_SIZE - 1)
    (h3 : 0 ≤ p.2) (h4 : p.2 ≤ GRID_SIZE - 1) :
    getNextPosition p a =
      (max 0 (min (GRID_SIZE - 1) (p.1 + dRow a)),
       max 0 (min (GRID_SIZE - 1) (p.2 + dCol a)))
    ∧ (0 ≤ (getNextPosition p a).1 ∧ (getNextPosition p a).1 ≤ GRID_SIZE - 1
       ∧ 0 ≤ (getNextPosition p a).2 ∧ (getNextPosition p a).2 ≤ GRID_SIZE - 1)
    ∧ (p.1 = 0 → getNextPosition p Action.up = p)
    ∧ (p.1 = GRID_SIZE - 1 → getNextPosition p Action.down = p)
    ∧ (p.2 = 0 → getNextPosition p Action.left = p)
    ∧ (p.2 = GRID_SIZE - 1 → getNextPosition p Action.right = p) := by
  obtain ⟨x, y⟩ := p
  simp only [GRID_SIZE] at h1 h2 h3 h4
  refine ⟨?_, ?_, ?_, ?_, ?_, ?_⟩
  · cases a <;>
      simp only [getNextPosition, dRow, dCol, GRID_SIZE, Prod.mk.injEq] <;>
        exact ⟨by omega, by omega⟩
  · cases a <;>
      simp only [getNextPosition, GRID_SIZE] <;>
        exact ⟨by omega, by omega, by omega, by omega⟩
  · intro h
    simp only [getNextPosition, Prod.mk.injEq]
    refine ⟨by omega, ?_⟩
    first | rfl | trivial
  · intro h
    simp only [GRID_SIZE] at h
    simp only [getNextPosition, GRID_SIZE, Prod.mk.injEq]
    refine ⟨by omega, ?_⟩
    first | rfl | trivial
  · intro h
    simp only [getNextPosition, Prod.mk.injEq]
    refine ⟨?_, by omega⟩
    first | rfl | trivial
  · intro h
    simp only [GRID_SIZE] at h
    simp only [getNextPosition, GRID_SIZE, Prod.mk.injEq]
    refine ⟨?_, by omega⟩
    first | rfl | trivial

/-- Witness for C5 at the concrete input p = (0,0), a = up. -/
theorem getNextPosition_clamps_witness :
    getNextPosition ((0 : Int), (0 : Int)) Action.up =
      (max 0 (min (GRID_SIZE - 1) ((0 : Int) + dRow Action.up)),
       max 0 (min (GRID_SIZE - 1) ((0 : Int) + dCol Action.up)))
    ∧ (0 ≤ (getNextPosition ((0 : Int), (0 : Int)) Action.up).1
       ∧ (getNextPosition ((0 : Int), (0 : Int)) Action.up).1 ≤ GRID_SIZE - 1
       ∧ 0 ≤ (getNextPosition ((0 : Int), (0 : Int)) Action.up).2
       ∧ (getNextPosition ((0 : Int), (0 : Int)) Action.up).2 ≤ GRID_SIZE - 1)
    ∧ ((0 : Int) = 0 → getNextPosition ((0 : Int), (0 : Int)) Action.up = ((0 : Int), (0 : Int)))
    ∧ ((0 : Int) = GRID_SIZE - 1 →
        getNextPosition ((0 : Int), (0 : Int)) Action.down = ((0 : Int), (0 : Int)))
    ∧ ((0 : Int) = 0 → getNextPosition ((0 : Int), (0 : Int)) Action.left = ((0 : Int), (0 : Int)))
    ∧ ((0 : Int) = GRID_SIZE - 1 →
        getNextPosition ((0 : Int), (0 : Int)) Action.right = ((0 : Int), (0 : Int))) :=
  getNextPosition_clamps ((0 : Int), (0 : Int)) Action.up
    (by decide) (by decide) (by decide) (by decide)

/-- On a nonempty grid, the reward is 10 exactly on gem cells. -/
theorem getReward_eq_ten_iff (g : Grid) (p : Pos) (h : ¬ g.length = 0) :
    getReward g p = 10 ↔ cellAt g p = some Cell.gem := by
  unfold getReward
  rw [if_neg h]
  cases hc : cellAt g p with
  | none => simp only [hc]; norm_num; decide
  | some c => cases c <;> simp only [hc] <;> norm_num <;> decide

/-- On a nonempty grid, the reward is -10 exactly on skull cells. -/
theorem getReward_eq_negten_iff (g : Grid) (p : Pos) (h : ¬ g.length = 0) :
    getReward g p = -10 ↔ cellAt g p = some Cell.skull := by
  unfold getReward
  rw [if_neg h]
  cases hc : cellAt g p with
  | none => simp only [hc]; norm_num; decide
  | some c => cases c <;> simp only [hc] <;> norm_num <;> decide

/-- On a nonempty grid, every non-gem non-skull cell rewards -0.1. -/
theorem getReward_other (g : Grid) (p : Pos) (h : ¬ g.length = 0)
    (h1 : ¬ cellAt g p = some Cell.gem) (h2 : ¬ cellAt g p = some Cell.skull) :
    getReward g p = -(1/10) := by
  unfold getReward
  rw [if_neg h]
  cases hc : cellAt g p with
  | none => rfl
  | some c =>
    cases c
    · rfl
    · rfl
    · exact absurd hc h1
    · exact absurd hc h2

/-- On a nonempty grid, terminal cells are exactly gem and skull cells. -/
theorem isTerminal_iff_cell (g : Grid) (p : Pos) (h : ¬ g.length = 0) :
    isTerminalState g p = true ↔
      (cellAt g p = some Cell.gem ∨ cellAt g p = some Cell.skull) := by
  unfold isTerminalState
  rw [if_neg h]
  cases hc : cellAt g p with
  | none => simp only [hc]; simp
  | some c => cases c <;> simp only [hc] <;> simp

/-- Claim C6: on the constructed fixed grid, for every in-bounds
position, getReward is +10 iff the gem cell (4,4), -10 iff a skull cell
(2,2), (1,3), (3,1), and exactly -0.1 otherwise; isTerminalState is true
iff the position is the gem or a skull. -/
theorem getReward_isTerminal_grid (p : Pos)
    (h1 : 0 ≤ p.1) (h2 : p.1 ≤ GRID_SIZE - 1)
    (h3 : 0 ≤ p.2) (h4 : p.2 ≤ GRID_SIZE - 1) :
    (getReward initializeGrid p = 10 ↔ p = ((4 : Int), (4 : Int)))
    ∧ (getReward initializeGrid p = -10 ↔
        (p = ((2 : Int), (2 : Int)) ∨ p = ((1 : Int), (3 : Int)) ∨ p = ((3 : Int), (1 : Int))))
    ∧ (p ≠ ((4 : Int), (4 : Int)) → p ≠ ((2 : Int), (2 : Int)) →
        p ≠ ((1 : Int), (3 : Int)) → p ≠ ((3 : Int), (1 : Int)) →
        getReward initializeGrid p = -(1/10))
    ∧ (isTerminalState initializeGrid p = true ↔
        (p = ((4 : Int), (4 : Int)) ∨ p = ((2 : Int), (2 : Int))
         ∨ p = ((1 : Int), (3 : Int)) ∨ p = ((3 : Int), (1 : Int)))) := by
  obtain ⟨x, y⟩ := p
  simp only [GRID_SIZE] at h2 h4
  have hx : x ≤ 4 := by omega
  have hy : y ≤ 4 := by omega
  have hg : ¬ initializeGrid.length = 0 := by decide
  have hcell :
      (cellAt initializeGrid (x, y) = some Cell.gem ↔
        ((x, y) : Pos) = ((4 : Int), (4 : Int)))
      ∧ (cellAt initializeGrid (x, y) = some Cell.skull ↔
          (((x, y) : Pos) = ((2 : Int), (2 : Int))
           ∨ ((x, y) : Pos) = ((1 : Int), (3 : Int))
           ∨ ((x, y) : Pos) = ((3 : Int), (1 : Int)))) := by
    interval_cases x <;> interval_cases y <;> exact ⟨by decide, by decide⟩
  refine ⟨?_, ?_, ?_, ?_⟩
  · rw [getReward_eq_ten_iff _ _ hg, hcell.1]
  · rw [getReward_eq_negten_iff _ _ hg, hcell.2]
  · intro h1 h2g h3g h4g
    refine getReward_other _ _ hg ?_ ?_
    · intro hc
      exact h1 (hcell.1.mp hc)
    · intro hc
      rcases hcell.2.mp hc with h | h | h
      · exact h2g h
      · exact h3g h
      · exact h4g h
  · rw [isTerminal_iff_cell _ _ hg, hcell.1, hcell.2]

/-- Witness for C6 at the concrete gem position (4,4). -/
theorem getReward_isTerminal_grid_witness :
    (getReward initializeGrid ((4 : Int), (4 : Int)) = 10 ↔
      ((4 : Int), (4 : Int)) = ((4 : Int), (4 : Int)))
    ∧ (getReward initializeGrid ((4 : Int), (4 : Int)) = -10 ↔
        (((4 : Int), (4 : Int)) = ((2 : Int), (2 : Int))
         ∨ ((4 : Int), (4 : Int)) = ((1 : Int), (3 : Int))
         ∨ ((4 : Int), (4 : Int)) = ((3 : Int), (1 : Int))))
    ∧ (((4 : Int), (4 : Int)) ≠ ((4 : Int), (4 : Int)) →
        ((4 : Int), (4 : Int)) ≠ ((2 : Int), (2 : Int)) →
        ((4 : Int), (4 : Int)) ≠ ((1 : Int), (3 : Int)) →
        ((4 : Int), (4 : Int)) ≠ ((3 : Int), (1 : Int)) →
        getReward initializeGrid ((4 : Int), (4 : Int)) = -(1/10))
    ∧ (isTerminalState initializeGrid ((4 : Int), (4 : Int)) = true ↔
        (((4 : Int), (4 : Int)) = ((4 : Int), (4 : Int))
         ∨ ((4 : Int), (4 : Int)) = ((2 : Int), (2 : Int))
         ∨ ((4 : Int), (4 : Int)) = ((1 : Int), (3 : Int))
         ∨ ((4 : Int), (4 : Int)) = ((3 : Int), (1 : Int)))) :=
  getReward_isTerminal_grid ((4 : Int), (4 : Int))
    (by decide) (by decide) (by decide) (by decide)

/-- Claim C9: reset unconditionally restores the initial state: zero
counters and cumulative reward, epsilon 0.2, best-episode reward
-Infinity, empty Q-table, empty trajectory and optimal path, agent at
the start position, and the fixed grid regenerated. -/
theorem reset_restores_initial (s : EngineState) :
    (reset s).stepCount = 0
    ∧ (reset s).episodeCount = 0
    ∧ (reset s).totalReward = 0
    ∧ (reset s).epsilon = 1/5
    ∧ (reset s).bestEpisodeReward = ⊥
    ∧ (reset s).qTable = []
    ∧ (reset s).currentPath = []
    ∧ (reset s).optimalPath = []
    ∧ (reset s).agentPos = ((0 : Int), (0 : Int))
    ∧ (reset s).grid = initializeGrid
    ∧ (reset s).isRunning = false :=
  ⟨rfl, rfl, rfl, rfl, rfl, rfl, rfl, rfl, rfl, rfl, rfl⟩

/-- Claim C10: before the grid is constructed (empty grid array),
getReward returns 0 for every position and isTerminalState returns
false for every position. -/
theorem getReward_empty_grid (p : Pos) :
    getReward ([] : Grid) p = 0 ∧ isTerminalState ([] : Grid) p = false :=
  ⟨rfl, rfl⟩

/-- ensureState preserves the logical value of every cell: the entry it
may create holds exactly the default 0 that a missing entry reads as. -/
theorem readQ_ensure (qt : QTable) (key k : String) (a : Action) :
    readQ (ensureState qt key) k a = readQ qt k a := by
  unfold ensureState
  cases h : qlookup qt key with
  | some e => rfl
  | none =>
    unfold readQ
    by_cases hk : key = k
    · subst hk
      simp [qlookup, h]
    · simp [qlookup, hk]

/-- After ensureState, the ensured key has an entry. -/
theorem qlookup_ensure_self (qt : QTable) (key : String) :
    (qlookup (ensureState qt key) key).isSome := by
  unfold ensureState
  cases h : qlookup qt key with
  | some e => simp [h]
  | none => simp [qlookup]

/-- ensureState never removes an entry. -/
theorem qlookup_ensure_mono (qt : QTable) (key k : String)
    (h : (qlookup qt k).isSome) : (qlookup (ensureState qt key) k).isSome := by
  unfold ensureState
  cases hq : qlookup qt key with
  | some e => exact h
  | none =>
    by_cases hk : key = k
    · simp [qlookup, hk]
    · simp [qlookup, hk, h]

/-- Unfolding setQ on a cons. -/
theorem setQ_cons (kv : String × QEntry) (rest : QTable) (key : String)
    (a : Action) (v : ℚ) :
    setQ (kv :: rest) key a v =
      (if kv.1 = key then (kv.1, fun b => if b = a then some v else kv.2 b) else kv)
        :: setQ rest key a v := rfl

/-- Lookup after setQ: the entry at the written key is updated pointwise
at the written action, all other entries are untouched. -/
theorem qlookup_setQ (qt : QTable) (key : String) (a : Action) (v : ℚ) (k : String) :
    qlookup (setQ qt key a v) k =
      (qlookup qt k).map
        (fun e => if k = key then (fun b => if b = a then some v else e b) else e) := by
  induction qt with
  | nil => rfl
  | cons kv rest ih =>
    rw [setQ_cons]
    by_cases h1 : kv.1 = key <;> by_cases h2 : kv.1 = k
    · have hk : k = key := by rw [← h2, h1]
      simp [qlookup, h1, h2, hk]
    · have hkk : ¬ key = k := fun hc => h2 (h1.trans hc)
      simp [qlookup, h1, h2, hkk, ih]
    · have hk : ¬ k = key := fun hc => h1 (by rw [h2, hc])
      simp [qlookup, h1, h2, hk]
    · simp [qlookup, h1, h2, ih]

/-- Reading after setQ: the written cell yields the written value (the
written key exists), all other cells keep their logical value. -/
theorem readQ_setQ (qt : QTable) (key : String) (a : Action) (v : ℚ)
    (k : String) (b : Action) (hsome : (qlookup qt key).isSome) :
    readQ (setQ qt key a v) k b =
      if k = key ∧ b = a then v else readQ qt k b := by
  unfold readQ
  rw [qlookup_setQ]
  by_cases hk : k = key
  · subst hk
    obtain ⟨e, he⟩ := Option.isSome_iff_exists.mp hsome
    rw [he]
    by_cases hb : b = a
    · subst hb
      simp
    · simp [hb]
  · simp only [hk, if_false, false_and]
    cases qlookup qt k <;> rfl

/-- Claim C3: the learner's update.  After ensuring both state entries
exist with all four actions defaulted to 0, the new value at
(state, action) is oldQ + alpha * (reward + gamma * maxNext - oldQ) with
maxNext the maximum of the four logical values at nextState; every other
Q-table cell keeps its logical value. -/
theorem qUpdate_td_rule (qt : QTable) (s : Pos) (a : Action) (r : ℚ) (n : Pos)
    (k : String) (b : Action) :
    readQ (qUpdate qt s a r n) k b =
      if k = stateKey s ∧ b = a then
        readQ qt (stateKey s) a
          + alpha * (r + gamma * maxNextOf qt n - readQ qt (stateKey s) a)
      else readQ qt k b := by
  have hqt2 : ∀ (k' : String) (b' : Action),
      readQ (ensureState (ensureState qt (stateKey s)) (stateKey n)) k' b'
        = readQ qt k' b' := by
    intro k' b'
    rw [readQ_ensure, readQ_ensure]
  have hsome :
      (qlookup (ensureState (ensureState qt (stateKey s)) (stateKey n))
        (stateKey s)).isSome :=
    qlookup_ensure_mono _ _ _ (qlookup_ensure_self qt (stateKey s))
  unfold qUpdate
  dsimp only
  rw [readQ_setQ _ _ _ _ _ _ hsome]
  by_cases hc : k = stateKey s ∧ b = a
  · rw [if_pos hc, if_pos hc]
    unfold maxNextOf maxOver
    simp only [hqt2]
  · rw [if_neg hc, if_neg hc]
    exact hqt2 k b

/-- The foldl greedy scan returns the first action attaining the maximum
of the four defaulted values: the running maximum starts at -Infinity and
is replaced only on strict improvement, so earlier maximal actions win. -/
theorem bestActionOf_eq (e : QEntry) :
    bestActionOf e = firstMaxAction (fun a => (e a).getD 0) := by
  unfold bestActionOf firstMaxAction maxOver ACTIONS
  simp only [List.foldl_cons, List.foldl_nil]
  set va := (e Action.up).getD 0 with hva
  set vb := (e Action.down).getD 0 with hvb
  set vc := (e Action.left).getD 0 with hvc
  set vd := (e Action.right).getD 0 with hvd
  by_cases hab : va < vb
  · by_cases hbc : vb < vc
    · by_cases hcd : vc < vd
      · simp only [WithBot.bot_lt_coe, WithBot.coe_lt_coe, hab, hbc, hcd,
          max_eq_right (le_of_lt hab), max_eq_right (le_of_lt hbc),
          max_eq_right (le_of_lt hcd),
          ne_of_lt (lt_trans (lt_trans hab hbc) hcd), ne_of_lt (lt_trans hbc hcd),
          ne_of_lt hcd, if_true, if_false, ite_true, ite_false]
      · simp only [WithBot.bot_lt_coe, WithBot.coe_lt_coe, hab, hbc, hcd,
          max_eq_right (le_of_lt hab), max_eq_right (le_of_lt hbc),
          max_eq_left (le_of_not_lt hcd),
          ne_of_lt (lt_trans hab hbc), ne_of_lt hbc, eq_self_iff_true,
          if_true, if_false, ite_true, ite_false]
    · by_cases hbd : vb < vd
      · simp only [WithBot.bot_lt_coe, WithBot.coe_lt_coe, hab, hbc, hbd,
          max_eq_right (le_of_lt hab), max_eq_left (le_of_not_lt hbc),
          max_eq_right (le_of_lt hbd),
          ne_of_lt (lt_trans hab hbd), ne_of_lt hbd,
          ne_of_lt (lt_of_le_of_lt (le_of_not_lt hbc) hbd),
          if_true, if_false, ite_true, ite_false]
      · simp only [WithBot.bot_lt_coe, WithBot.coe_lt_coe, hab, hbc, hbd,
          max_eq_right (le_of_lt hab), max_eq_left (le_of_not_lt hbc),
          max_eq_left (le_of_not_lt hbd),
          ne_of_lt hab, eq_self_iff_true, if_true, if_false, ite_true, ite_false]
  · by_cases hac : va < vc
    · by_cases hcd : vc < vd
      · simp only [WithBot.bot_lt_coe, WithBot.coe_lt_coe, hab, hac, hcd,
          max_eq_left (le_of_not_lt hab), max_eq_right (le_of_lt hac),
          max_eq_right (le_of_lt hcd),
          ne_of_lt (lt_trans hac hcd),
          ne_of_lt (lt_of_le_of_lt (le_of_not_lt hab) (lt_trans hac hcd)),
          ne_of_lt hcd, if_true, if_false, ite_true, ite_false]
      · simp only [WithBot.bot_lt_coe, WithBot.coe_lt_coe, hab, hac, hcd,
          max_eq_left (le_of_not_lt hab), max_eq_right (le_of_lt hac),
          max_eq_left (le_of_not_lt hcd),
          ne_of_lt hac, ne_of_lt (lt_of_le_of_lt (le_of_not_lt hab) hac),
          eq_self_iff_true, if_true, if_false, ite_true, ite_false]
    · by_cases had : va < vd
      · simp only [WithBot.bot_lt_coe, WithBot.coe_lt_coe, hab, hac, had,
          max_eq_left (le_of_not_lt hab), max_eq_left (le_of_not_lt hac),
          max_eq_right (le_of_lt had),
          ne_of_lt had, ne_of_lt (lt_of_le_of_lt (le_of_not_lt hab) had),
          ne_of_lt (lt_of_le_of_lt (le_of_not_lt hac) had),
          if_true, if_false, ite_true, ite_false]
      · simp only [WithBot.bot_lt_coe, WithBot.coe_lt_coe, hab, hac, had,
          max_eq_left (le_of_not_lt hab), max_eq_left (le_of_not_lt hac),
          max_eq_left (le_of_not_lt had),
          eq_self_iff_true, if_true, if_false, ite_true, ite_false]

/-- Claim C2: in the greedy branch of chooseAction, for every state whose
entry has all four actions populated, the returned action is the first
action in the order [up, down, left, right] whose stored value equals the
maximum of the four stored values. -/
theorem chooseAction_greedy_firstMax (p : Pos) (qt : QTable) (v : Action → ℚ)
    (ra : Action) (h : qlookup qt (stateKey p) = some (fun a => some (v a))) :
    (chooseAction p qt false ra).1 = firstMaxAction v := by
  unfold chooseAction
  have he : ensureState qt (stateKey p) = qt := by
    unfold ensureState
    rw [h]
  dsimp only
  rw [he, h]
  simp only [Bool.false_eq_true, if_false, ite_false, Option.getD_some]
  rw [bestActionOf_eq]
  exact congrArg firstMaxAction (funext fun a => rfl)

/-- Witness for C2 on a concrete one-entry table. -/
theorem chooseAction_greedy_firstMax_witness :
    (chooseAction ((0 : Int), (0 : Int)) qtDemo false Action.up).1 =
      firstMaxAction vDemo :=
  chooseAction_greedy_firstMax ((0 : Int), (0 : Int)) qtDemo vDemo Action.up rfl

/-- The loop of calculateOptimalPath pushes at most one position per
iteration of the budget. -/
theorem calcLoop_length_le (g : Grid) (qt : QTable) :
    ∀ (fuel : Nat) (cur : Pos), (calcLoop g qt fuel cur).1.length ≤ fuel := by
  intro fuel
  induction fuel with
  | zero =>
    intro cur
    simp [calcLoop]
  | succ m ih =>
    intro cur
    by_cases ht : isTerminalState g cur = true
    · simp [calcLoop, ht]
    · cases hq : qlookup qt (stateKey cur) with
      | none => simp [calcLoop, ht, hq]
      | some e =>
        simp only [calcLoop, ht, hq, Bool.false_eq_true, if_false, ite_false,
          List.length_cons]
        exact Nat.succ_le_succ (ih _)

/-- Claim C7: calculateOptimalPath never returns more than 51 positions
(at most 50 loop-appended positions plus a possible trailing terminal). -/
theorem calculateOptimalPath_length_le (g : Grid) (qt : QTable) :
    (calculateOptimalPath g qt).length ≤ 51 := by
  unfold calculateOptimalPath
  dsimp only
  split
  · rw [List.length_append]
    have h := calcLoop_length_le g qt 50 ((0 : Int), (0 : Int))
    simp only [List.length_singleton]
    omega
  · exact le_trans (calcLoop_length_le g qt 50 _) (by norm_num)

/-- The code's loop plus trailing-terminal append agrees with the spec's
walk at every fuel budget and start position. -/
theorem calcLoop_spec (g : Grid) (qt : QTable) :
    ∀ (fuel : Nat) (cur : Pos),
      (if isTerminalState g (calcLoop g qt fuel cur).2 then
        (calcLoop g qt fuel cur).1 ++ [(calcLoop g qt fuel cur).2]
      else (calcLoop g qt fuel cur).1) = specExtractLoop g qt fuel cur := by
  intro fuel
  induction fuel with
  | zero =>
    intro cur
    simp only [calcLoop, specExtractLoop]
    split
    · simp
    · rfl
  | succ m ih =>
    intro cur
    by_cases ht : isTerminalState g cur = true
    · simp [calcLoop, specExtractLoop, ht]
    · cases hq : qlookup qt (stateKey cur) with
      | none => simp [calcLoop, specExtractLoop, ht, hq]
      | some e =>
        simp only [calcLoop, specExtractLoop, ht, hq, Bool.false_eq_true,
          if_false, ite_false]
        rw [← bestActionOf_eq e]
        rw [← ih (getNextPosition cur (bestActionOf e))]
        by_cases hterm :
            isTerminalState g
              (calcLoop g qt m (getNextPosition cur (bestActionOf e))).2 = true
        · simp [hterm]
        · simp [hterm]

/-- Claim C1: for every Q-table snapshot, calculateOptimalPath performs
exactly the walk the spec describes: start at (0,0); append-and-stop on a
terminal position; otherwise append, stop if the state has no entry, and
otherwise advance via the maximal-value action under the fixed tie-break
order. -/
theorem calculateOptimalPath_follows_spec (g : Grid) (qt : QTable) :
    calculateOptimalPath g qt = extractOptimalPathSpec g qt := by
  unfold calculateOptimalPath extractOptimalPathSpec
  dsimp only
  exact calcLoop_spec g qt 50 ((0 : Int), (0 : Int))

/-- The reduce over the trajectory computes the sum of the step rewards. -/
theorem foldl_add_rewards (l : List PathStep) (c : ℚ) :
    l.foldl (fun sum st => sum + st.reward) c = c + (l.map PathStep.reward).sum := by
  induction l generalizing c with
  | nil => simp
  | cons st tl ih =>
    simp only [List.foldl_cons, List.map_cons, List.sum_cons]
    rw [ih]
    ring

/-- Claim C8: saveCurrentPath is a no-op on an empty trajectory;
otherwise it appends exactly one entry whose total reward is the sum of
the trajectory's step rewards, whose display name is sequential in the
number of existing saved paths, and which carries a copy of the
trajectory; existing entries are only ever appended after, never touched. -/
theorem saveCurrentPath_append_or_noop (s : EngineState) (now : Nat) :
    (s.currentPath = [] → saveCurrentPath s now = s)
    ∧ (s.currentPath ≠ [] →
        (saveCurrentPath s now).savedPaths =
          s.savedPaths ++
            [{ id := toString now
               name := "Path " ++ toString (s.savedPaths.length + 1)
               steps := s.currentPath
               totalReward := (s.currentPath.map PathStep.reward).sum
               timestamp := now }]) := by
  constructor
  · intro h
    unfold saveCurrentPath
    rw [if_pos]
    rw [h]
    rfl
  · intro h
    unfold saveCurrentPath
    rw [if_neg (by simpa [List.length_eq_zero] using h)]
    dsimp only
    rw [foldl_add_rewards]
    rw [zero_add]

/-- Witness for C8: the empty-trajectory no-op at the initial state and
the single append on a state with a one-step trajectory. -/
theorem saveCurrentPath_append_or_noop_witness :
    saveCurrentPath initState 0 = initState
    ∧ (saveCurrentPath sDemo 7).savedPaths =
        sDemo.savedPaths ++
          [{ id := toString 7
             name := "Path " ++ toString (sDemo.savedPaths.length + 1)
             steps := sDemo.currentPath
             totalReward := (sDemo.currentPath.map PathStep.reward).sum
             timestamp := 7 }] :=
  ⟨(saveCurrentPath_append_or_noop initState 0).1 rfl,
   (saveCurrentPath_append_or_noop sDemo 7).2 (by simp [sDemo])⟩

/-- One engine step either leaves both the episode count and epsilon
unchanged, or (exactly when an episode completes) increments the episode
count and applies the decay rule max(epsilon * 0.995, 0.01) once. -/
theorem stepEngine_epsilon_cases (s : EngineState) (e : Bool) (a : Action) :
    ((stepEngine s e a).episodeCount = s.episodeCount
      ∧ (stepEngine s e a).epsilon = s.epsilon)
    ∨ ((stepEngine s e a).episodeCount = s.episodeCount + 1
        ∧ (stepEngine s e a).epsilon = max (s.epsilon * epsilonDecay) minEpsilon) := by
  unfold stepEngine
  split
  · exact Or.inl ⟨rfl, rfl⟩
  · dsimp only
    split
    · exact Or.inr ⟨rfl, rfl⟩
    · exact Or.inl ⟨rfl, rfl⟩

/-- An engine step never increases epsilon (given the floor invariant). -/
theorem stepEngine_epsilon_le (s : EngineState) (e : Bool) (a : Action)
    (h : minEpsilon ≤ s.epsilon) : (stepEngine s e a).epsilon ≤ s.epsilon := by
  rcases stepEngine_epsilon_cases s e a with ⟨_, he⟩ | ⟨_, he⟩
  · rw [he]
  · rw [he]
    apply max_le
    · refine mul_le_of_le_one_right ?_ ?_
      · exact le_trans (by norm_num [minEpsilon]) h
      · norm_num [epsilonDecay]
    · exact h

/-- saveCurrentPath never touches epsilon. -/
theorem saveCurrentPath_epsilon (s : EngineState) (now : Nat) :
    (saveCurrentPath s now).epsilon = s.epsilon := by
  unfold saveCurrentPath
  split
  · rfl
  · rfl

/-- showOptimalRoute never touches epsilon. -/
theorem showOptimalRoute_epsilon (s : EngineState) :
    (showOptimalRoute s).epsilon = s.epsilon := by
  unfold showOptimalRoute
  split
  · rfl
  · rfl

/-- Every public command keeps epsilon within [0.01, 0.2]. -/
theorem applyCmd_epsilon (s : EngineState) (c : Cmd)
    (h1 : minEpsilon ≤ s.epsilon) (h2 : s.epsilon ≤ 1/5) :
    minEpsilon ≤ (applyCmd s c).epsilon ∧ (applyCmd s c).epsilon ≤ 1/5 := by
  cases c with
  | cstep e a =>
    rcases stepEngine_epsilon_cases s e a with ⟨_, he⟩ | ⟨_, he⟩
    · rw [applyCmd, he]
      exact ⟨h1, h2⟩
    · rw [applyCmd, he]
      constructor
      · exact le_max_right _ _
      · apply max_le
        · calc s.epsilon * epsilonDecay
              ≤ s.epsilon := by
                refine mul_le_of_le_one_right ?_ ?_
                · exact le_trans (by norm_num [minEpsilon]) h1
                · norm_num [epsilonDecay]
            _ ≤ 1/5 := h2
        · norm_num [minEpsilon]
  | creset =>
    constructor
    · norm_num [applyCmd, reset, minEpsilon]
    · norm_num [applyCmd, reset]
  | ctoggle => exact ⟨h1, h2⟩
  | csave now =>
    rw [applyCmd, saveCurrentPath_epsilon]
    exact ⟨h1, h2⟩
  | cshow =>
    rw [applyCmd, showOptimalRoute_epsilon]
    exact ⟨h1, h2⟩
  | chide => exact ⟨h1, h2⟩

/-- The epsilon range invariant propagates along any command sequence. -/
theorem foldl_applyCmd_epsilon (cmds : List Cmd) :
    ∀ s : EngineState, minEpsilon ≤ s.epsilon → s.epsilon ≤ 1/5 →
      minEpsilon ≤ (cmds.foldl applyCmd s).epsilon
        ∧ (cmds.foldl applyCmd s).epsilon ≤ 1/5 := by
  induction cmds with
  | nil =>
    intro s h1 h2
    exact ⟨h1, h2⟩
  | cons c cs ih =>
    intro s h1 h2
    have h := applyCmd_epsilon s c h1 h2
    simpa using ih (applyCmd s c) h.1 h.2

/-- Claim C4: epsilon starts at 0.2; a step either leaves episode count
and epsilon unchanged or, on episode completion, increments the episode
count and applies epsilon := max(epsilon * 0.995, 0.01) exactly once;
epsilon never increases across steps; and along every command sequence
from the initial state it stays in [0.01, 0.2]. -/
theorem epsilon_decay_invariant :
    initState.epsilon = 1/5
    ∧ (∀ (s : EngineState) (e : Bool) (a : Action),
        ((stepEngine s e a).episodeCount = s.episodeCount
          ∧ (stepEngine s e a).epsilon = s.epsilon)
        ∨ ((stepEngine s e a).episodeCount = s.episodeCount + 1
            ∧ (stepEngine s e a).epsilon = max (s.epsilon * epsilonDecay) minEpsilon))
    ∧ (∀ (s : EngineState) (e : Bool) (a : Action),
        minEpsilon ≤ s.epsilon → (stepEngine s e a).epsilon ≤ s.epsilon)
    ∧ (∀ cmds : List Cmd,
        minEpsilon ≤ (runCmds cmds).epsilon ∧ (runCmds cmds).epsilon ≤ 1/5) :=
  ⟨rfl, stepEngine_epsilon_cases, stepEngine_epsilon_le,
   fun cmds =>
     foldl_applyCmd_epsilon cmds initState
       (by norm_num [initState, minEpsilon]) (by norm_num [initState])⟩

/-- Witness for C4: the non-increase conjunct applied at the initial
state with a concrete step. -/
theorem epsilon_decay_invariant_witness :
    (stepEngine initState false Action.up).epsilon ≤ initState.epsilon :=
  epsilon_decay_invariant.2.2.1 initState false Action.up
    (by norm_num [initState, minEpsilon])

end RL
